import Mathlib

/-!
Verification of the design-token generator of ux-ui-pilot
(src/knowledge/design-tokens.ts), together with the contrast evaluator
described in the specification.  JavaScript number arithmetic is modelled
over exact rationals; strings are built from explicit character lists.
-/

namespace DesignTokens

/-! ### JavaScript number primitives (exact-rational model) -/

/-- Math.round on an exact rational: floor (q + 1/2), matching the
ECMAScript definition of rounding half toward positive infinity. -/
def jsRound (q : ℚ) : ℤ := ⌊q + 1/2⌋

/-- Math.round (q * 100) / 100, the 2-decimal rounding applied to px values. -/
def round2 (q : ℚ) : ℚ := (jsRound (q * 100) : ℚ) / 100

/-- Rounding to 4 decimal places: the rational value that toFixed(4) denotes. -/
def round4 (q : ℚ) : ℚ := (jsRound (q * 10000) : ℚ) / 10000

/-- Truncation toward zero, the integral step of the JavaScript % operator. -/
def ratTrunc (q : ℚ) : ℤ := if q < 0 then ⌈q⌉ else ⌊q⌋

/-- The JavaScript remainder x % y = x - y * trunc (x / y) (finite operands). -/
def jsMod (x y : ℚ) : ℚ := x - y * (ratTrunc (x / y) : ℚ)

/-! ### Number-to-string conversion (Number.prototype.toString, toFixed) -/

/-- Digit characters 0-9, a-f, as produced by Number.prototype.toString
(lowercase, bases up to 16). -/
def digitChar (d : ℕ) : Char :=
  if d < 10 then Char.ofNat (48 + d) else Char.ofNat (87 + d)

/-- Big-endian character digits of n in base b, accumulated into acc.
The first argument is fuel; fuel n suffices for value n. -/
def toDigitsAux (b : ℕ) : ℕ → ℕ → List Char → List Char
  | 0, _, acc => acc
  | fuel + 1, n, acc =>
    if n = 0 then acc else toDigitsAux b fuel (n / b) (digitChar (n % b) :: acc)

/-- The character digits of n in base b (["0"] for 0), as Number.toString. -/
def natToDigits (b n : ℕ) : List Char :=
  if n = 0 then ['0'] else toDigitsAux b n n []

/-- Decimal string of a natural number. -/
def natStr (n : ℕ) : String := String.mk (natToDigits 10 n)

/-- Decimal string of an integer, with a leading minus sign when negative. -/
def intStr (i : ℤ) : String :=
  if i < 0 then "-" ++ natStr i.natAbs else natStr i.toNat

/-- String.padStart(2, "0") as applied to a hex byte. -/
def padStart2 (s : String) : String := if s.length < 2 then "0" ++ s else s

/-- Math.round result rendered by toString(16).padStart(2, "0") in hslToHex. -/
def hexByte (i : ℤ) : String :=
  padStart2 (if i < 0 then "-" ++ String.mk (natToDigits 16 i.natAbs)
             else String.mk (natToDigits 16 i.toNat))

/-- Leading zeros added in front of a digit list to reach width w. -/
def padZeros (w : ℕ) (cs : List Char) : List Char :=
  List.replicate (w - cs.length) '0' ++ cs

/-- The digits of n / 10000 written with exactly 4 decimal places: the
character content of toFixed(4) for the nonnegative value n / 10000. -/
def fixedFmt4 (n : ℕ) : List Char :=
  natToDigits 10 (n / 10000) ++ '.' :: padZeros 4 (natToDigits 10 (n % 10000))

/-- Number.prototype.toFixed(4) on an exact rational, per ECMAScript: for a
negative argument a minus sign is prefixed and the magnitude is formatted;
the integer of 4-decimal units is chosen by rounding half away from zero
(ties toward the larger integer on the magnitude). -/
def jsToFixed4 (x : ℚ) : String :=
  if x < 0 then "-" ++ String.mk (fixedFmt4 (jsRound (-x * 10000)).toNat)
  else String.mk (fixedFmt4 (jsRound (x * 10000)).toNat)

/-- The effect of .replace(/0+$/, ""): trailing zero characters removed. -/
def stripTrailingZeros (cs : List Char) : List Char :=
  (cs.reverse.dropWhile (· == '0')).reverse

/-- The effect of .replace(/\.$/, ""): one trailing dot removed, if present. -/
def stripTrailingDot (cs : List Char) : List Char :=
  if cs.getLast? = some '.' then cs.dropLast else cs

/-- The rem string of design-tokens.ts: (px/16).toFixed(4) with trailing
zeros and a trailing decimal point removed, then the suffix "rem". -/
def remString (px : ℚ) : String :=
  String.mk (stripTrailingDot (stripTrailingZeros (jsToFixed4 (px / 16)).data)) ++ "rem"

/-- String() / template interpolation of a JavaScript number whose decimal
expansion needs at most 4 decimal places (all values interpolated by the
generator): the shortest decimal form of the number. -/
def jsNumStr (q : ℚ) : String :=
  String.mk (stripTrailingDot (stripTrailingZeros (jsToFixed4 q).data))

/-! ### Verification-side decimal parser (independent of the printer) -/

/-- Test for a decimal digit character. -/
def isDigitCh (c : Char) : Bool := 48 ≤ c.toNat && c.toNat ≤ 57

/-- Numeric value of a decimal digit character. -/
def digitVal (c : Char) : ℕ := c.toNat - 48

/-- Fold a big-endian digit string onto an accumulator; none on a non-digit. -/
def parseNatAux : List Char → ℕ → Option ℕ
  | [], acc => some acc
  | c :: cs, acc =>
    if isDigitCh c then parseNatAux cs (acc * 10 + digitVal c) else none

/-- Parse a nonempty digit string as a natural number. -/
def parseNatChars (cs : List Char) : Option ℕ :=
  if cs.isEmpty then none else parseNatAux cs 0

/-- Parse a decimal numeral (integer part, optional point and fraction part)
as an exact rational. -/
def parseDec (cs : List Char) : Option ℚ :=
  match cs.dropWhile (· != '.') with
  | [] => (parseNatChars cs).map (fun a => (a : ℚ))
  | _ :: frac =>
    (parseNatChars (cs.takeWhile (· != '.'))).bind fun a =>
      (parseNatChars frac).map fun b => (a : ℚ) + (b : ℚ) / 10 ^ frac.length

/-- Parse a CSS length of the form "<decimal>rem" as an exact rational. -/
def parseRem (s : String) : Option ℚ :=
  if s.data.reverse.take 3 = ['m', 'e', 'r']
  then parseDec (s.data.take (s.data.length - 3)) else none

/-! ### Type scale (design-tokens.ts lines 14-80) -/

/-- The closed TypeScript union of ratio names (type TypeScaleRatio). -/
inductive TypeScaleRatio : Type
  | minorSecond
  | majorSecond
  | minorThird
  | majorThird
  | perfectFourth
  | augmentedFourth
  | perfectFifth
  | goldenRatio
deriving DecidableEq

/-- TYPE_SCALE_RATIOS: the ratio constant for each ratio name. -/
def TYPE_SCALE_RATIOS : TypeScaleRatio → ℚ
  | .minorSecond => 1067/1000
  | .majorSecond => 1125/1000
  | .minorThird => 1200/1000
  | .majorThird => 1250/1000
  | .perfectFourth => 1333/1000
  | .augmentedFourth => 1414/1000
  | .perfectFifth => 1500/1000
  | .goldenRatio => 1618/1000

/-- One row of the fixed step table inside generateTypeScale. -/
structure ScaleStepSpec where
  name : String
  exponent : ℤ
  weight : ℕ
  lineHeight : String
deriving DecidableEq

/-- The fixed step table of generateTypeScale (names, exponents, weights,
line heights), in source order. -/
def typeScaleSteps : List ScaleStepSpec :=
  [⟨"xs", -2, 400, "1.5"⟩,
   ⟨"sm", -1, 400, "1.5"⟩,
   ⟨"base", 0, 400, "1.5"⟩,
   ⟨"lg", 1, 400, "1.45"⟩,
   ⟨"xl", 2, 500, "1.4"⟩,
   ⟨"2xl", 3, 600, "1.35"⟩,
   ⟨"3xl", 4, 600, "1.3"⟩,
   ⟨"4xl", 5, 700, "1.2"⟩,
   ⟨"5xl", 6, 700, "1.15"⟩,
   ⟨"display", 7, 800, "1.1"⟩]

/-- Interface TypeScaleStep of design-tokens.ts. -/
structure TypeScaleStep where
  name : String
  factor : ℚ
  rem : String
  px : ℚ
  suggestedWeight : ℕ
  suggestedLineHeight : String
deriving DecidableEq

/-- GenerateTypeScale for a ratio of the closed union type: each step has
px = Math.round(base * r^exponent * 100) / 100 and rem = remString px. -/
def generateTypeScale (baseSizePx : ℚ) (r : TypeScaleRatio) : List TypeScaleStep :=
  typeScaleSteps.map fun st =>
    let px := round2 (baseSizePx * TYPE_SCALE_RATIOS r ^ (st.exponent : ℤ))
    { name := st.name
      factor := TYPE_SCALE_RATIOS r ^ (st.exponent : ℤ)
      rem := remString px
      px := px
      suggestedWeight := st.weight
      suggestedLineHeight := st.lineHeight }

/-! ### Runtime (untyped) semantics of generateTypeScale

TypeScript erases the TypeScaleRatio union at runtime; a caller that evades
the type checker can pass any string.  TYPE_SCALE_RATIOS[s] is then
undefined for an unrecognized s, and the arithmetic propagates NaN --
except Math.pow(undefined, 0), which is 1 by the ECMAScript exponentiation
rule.  NaN is modelled as none. -/

/-- The entries of the TYPE_SCALE_RATIOS record, as an association list. -/
def TYPE_SCALE_RATIOS_ENTRIES : List (String × ℚ) :=
  [("minor-second", 1067/1000),
   ("major-second", 1125/1000),
   ("minor-third", 1200/1000),
   ("major-third", 1250/1000),
   ("perfect-fourth", 1333/1000),
   ("augmented-fourth", 1414/1000),
   ("perfect-fifth", 1500/1000),
   ("golden-ratio", 1618/1000)]

/-- Math.pow with a possibly-NaN base and an integer exponent: returns 1
for exponent 0 whatever the base, and propagates NaN otherwise. -/
def jsPowOpt (r : Option ℚ) (e : ℤ) : Option ℚ :=
  if e = 0 then some 1 else r.map fun q => q ^ e

/-- ToFixed(4) on a possibly-NaN number: NaN.toFixed(4) is "NaN". -/
def jsToFixed4Opt : Option ℚ → String
  | none => "NaN"
  | some x => jsToFixed4 x

/-- The rem string computed from a possibly-NaN px value. -/
def remStringOpt (px : Option ℚ) : String :=
  String.mk (stripTrailingDot (stripTrailingZeros
    (jsToFixed4Opt (px.map (· / 16))).data)) ++ "rem"

/-- A type-scale step as produced at runtime, with possibly-NaN numbers. -/
structure TypeScaleStepJS where
  name : String
  factor : Option ℚ
  rem : String
  px : Option ℚ
  suggestedWeight : ℕ
  suggestedLineHeight : String
deriving DecidableEq

/-- The runtime behaviour of generateTypeScale on an arbitrary ratio
string: the record lookup may miss (undefined, modelled none), and the
step list is produced regardless -- no error is ever raised. -/
def generateTypeScaleUntyped (baseSizePx : ℚ) (ratioName : String) :
    List TypeScaleStepJS :=
  let r := TYPE_SCALE_RATIOS_ENTRIES.lookup ratioName
  typeScaleSteps.map fun st =>
    let factor := jsPowOpt r st.exponent
    let px := factor.map fun f => round2 (baseSizePx * f)
    { name := st.name
      factor := factor
      rem := remStringOpt px
      px := px
      suggestedWeight := st.weight
      suggestedLineHeight := st.lineHeight }

/-! ### Colour scale (design-tokens.ts lines 86-149) -/

/-- Interface ColorScaleStop: a shade index and its target lightness. -/
structure ColorScaleStop where
  shade : ℕ
  lightness : ℚ
deriving DecidableEq

/-- STANDARD_COLOR_SHADES: the fixed 10-stop lightness ramp. -/
def STANDARD_COLOR_SHADES : List ColorScaleStop :=
  [⟨50, 97⟩, ⟨100, 93⟩, ⟨200, 85⟩, ⟨300, 74⟩, ⟨400, 62⟩,
   ⟨500, 50⟩, ⟨600, 41⟩, ⟨700, 33⟩, ⟨800, 24⟩, ⟨900, 15⟩]

/-- Interface ColorScaleConfig. -/
structure ColorScaleConfig where
  name : String
  hue : ℚ
  saturation : ℚ

/-- Interface GeneratedColorStop. -/
structure GeneratedColorStop where
  shade : ℕ
  hsl : String
  hex : String
deriving DecidableEq

/-- One colour channel of hslToHex: the body of the local function f in
design-tokens.ts, returning the rounded channel value before hex encoding. -/
def hslChannel (h s l n : ℚ) : ℤ :=
  let lNorm := l / 100
  let a := s / 100 * min lNorm (1 - lNorm)
  let k := jsMod (n + h / 30) 12
  let color := lNorm - a * max (min (min (k - 3) (9 - k)) 1) (-1)
  jsRound (255 * color)

/-- HslToHex from design-tokens.ts: "#" then the channels f 0, f 8, f 4. -/
def hslToHex (h s l : ℚ) : String :=
  "#" ++ hexByte (hslChannel h s l 0) ++ hexByte (hslChannel h s l 8)
      ++ hexByte (hslChannel h s l 4)

/-- GenerateColorScale: one stop per STANDARD_COLOR_SHADES entry, with the
saturation multiplied by 0.7 at lightness extremes and rounded to a whole
percent for both the hsl string and the hex conversion. -/
def generateColorScale (config : ColorScaleConfig) : List GeneratedColorStop :=
  STANDARD_COLOR_SHADES.map fun stop =>
    let satAdjust :=
      if stop.lightness > 90 ∨ stop.lightness < 20
      then config.saturation * (7/10) else config.saturation
    { shade := stop.shade
      hsl := "hsl(" ++ jsNumStr config.hue ++ ", " ++ intStr (jsRound satAdjust)
               ++ "%, " ++ jsNumStr stop.lightness ++ "%)"
      hex := hslToHex config.hue (jsRound satAdjust : ℤ) stop.lightness }

/-! ### Spacing scale (design-tokens.ts lines 155-177) -/

/-- Interface SpacingStep. -/
structure SpacingStep where
  name : String
  px : ℚ
  rem : String
deriving DecidableEq

/-- The fixed multiplier list of generateSpacingScale. -/
def spacingMultipliers : List ℚ :=
  [0, 1/2, 1, 3/2, 2, 5/2, 3, 4, 5, 6, 7, 8, 10, 12, 14, 16, 20, 24, 28, 32]

/-- GenerateSpacingScale: px = baseUnit * mult, rem as for the type scale,
and the name is the JavaScript string form of the multiplier (the
source's replace("0.", "0.") is the identity). -/
def generateSpacingScale (baseUnit : ℚ) : List SpacingStep :=
  spacingMultipliers.map fun mult =>
    let px := baseUnit * mult
    let rem := remString px
    let name := if mult = 0 then "0"
      else if mult < 1 then jsNumStr mult else jsNumStr mult
    { name := name, px := px, rem := rem }

/-! ### Contrast evaluator

Modelled from the spec: no evaluateContrast function exists under src/ --
the repository delegates contrast computation to the language model via
prompt text (design-system.ts SYSTEM_PROMPT).  Section 4.5 of the spec
fixes its contract: WCAG relative luminance via the standard
gamma-corrected channel weighting 0.2126/0.7152/0.0722, ratio
(L_lighter + 0.05) / (L_darker + 0.05), thresholds 4.5 / 7.0 / 3.0. -/

/-- A color as an 8-bit RGB triple. -/
structure RGB where
  r : ℕ
  g : ℕ
  b : ℕ

/-- Modelled from the spec: WCAG gamma correction of one sRGB channel
scaled to [0, 1]. -/
noncomputable def srgbChannel (c : ℝ) : ℝ :=
  if c ≤ 0.03928 then c / 12.92 else ((c + 0.055) / 1.055) ^ (2.4 : ℝ)

/-- Modelled from the spec: WCAG relative luminance of an RGB color. -/
noncomputable def relativeLuminance (c : RGB) : ℝ :=
  0.2126 * srgbChannel (c.r / 255) + 0.7152 * srgbChannel (c.g / 255)
    + 0.0722 * srgbChannel (c.b / 255)

/-- The result record of the contrast evaluator. -/
structure ContrastResult where
  ratioValue : ℝ
  passesAA : Prop
  passesAAA : Prop
  passesAALargeText : Prop

/-- Modelled from the spec: evaluateContrast computes the ratio
(L_lighter + 0.05) / (L_darker + 0.05) and classifies it against the
inclusive WCAG thresholds. -/
noncomputable def evaluateContrast (fg bg : RGB) : ContrastResult :=
  let l1 := max (relativeLuminance fg) (relativeLuminance bg)
  let l2 := min (relativeLuminance fg) (relativeLuminance bg)
  let ratioValue := (l1 + 0.05) / (l2 + 0.05)
  { ratioValue := ratioValue
    passesAA := ratioValue ≥ 4.5
    passesAAA := ratioValue ≥ 7.0
    passesAALargeText := ratioValue ≥ 3.0 }

/-! ### The standard HSL to RGB conversion, as the specification words it

Section 4.1 of the spec: the classic k = (n + h/30) mod 12 chromatic
formula, each channel value in [0, 255] rounded to the nearest integer and
left-padded to 2 hex digits.  Written with the mathematical (floor)
modulus; the refinement theorem for C7 relates it to the source function,
whose % is truncation-based. -/

/-- Mathematical modulus on rationals: x - y * floor (x / y). -/
def floorMod (x y : ℚ) : ℚ := x - y * (⌊x / y⌋ : ℚ)

/-- One channel of the standard HSL to RGB conversion per the spec text. -/
def specHslChannel (h s l n : ℚ) : ℤ :=
  let k := floorMod (n + h / 30) 12
  let a := s / 100 * min (l / 100) (1 - l / 100)
  jsRound (255 * (l / 100 - a * max (min (min (k - 3) (9 - k)) 1) (-1)))

/-- The standard conversion assembled into a hex string per the spec text. -/
def specHslToHex (h s l : ℚ) : String :=
  "#" ++ hexByte (specHslChannel h s l 0) ++ hexByte (specHslChannel h s l 8)
      ++ hexByte (specHslChannel h s l 4)

/-! ### Arithmetic helper lemmas -/

theorem jsRound_intCast (z : ℤ) : jsRound (z : ℚ) = z := by
  unfold jsRound
  rw [add_comm, Int.floor_add_int]
  norm_num

theorem jsRound_nonneg {q : ℚ} (hq : 0 ≤ q) : 0 ≤ jsRound q := by
  unfold jsRound
  exact Int.floor_nonneg.2 (by linarith)

theorem round2_nonneg {q : ℚ} (hq : 0 ≤ q) : 0 ≤ round2 q := by
  unfold round2
  have h : (0 : ℤ) ≤ jsRound (q * 100) := jsRound_nonneg (by positivity)
  positivity

/-- Rounding to 2 decimals is the identity on multiples of 1/100. -/
theorem round2_eq_self {q : ℚ} (z : ℤ) (hz : (z : ℚ) = q * 100) :
    round2 q = q := by
  unfold round2
  rw [← hz, jsRound_intCast, hz]
  field_simp

/-- Evaluation form of jsToFixed4 at a nonnegative 4-decimal rational. -/
theorem jsToFixed4_fmt {x : ℚ} (n : ℕ) (hx : 0 ≤ x) (h : x * 10000 = (n : ℚ)) :
    jsToFixed4 x = String.mk (fixedFmt4 n) := by
  unfold jsToFixed4
  rw [if_neg (not_lt.2 hx), h]
  rw [show ((n : ℚ) = ((n : ℤ) : ℚ)) by push_cast; ring, jsRound_intCast]
  simp

/-- Evaluation form of jsNumStr at a nonnegative 4-decimal rational. -/
theorem jsNumStr_fmt {x : ℚ} (n : ℕ) (hx : 0 ≤ x) (h : x * 10000 = (n : ℚ)) :
    jsNumStr x = String.mk (stripTrailingDot (stripTrailingZeros (fixedFmt4 n))) := by
  unfold jsNumStr
  rw [jsToFixed4_fmt n hx h]

/-- Evaluation form of remString at a nonnegative px value, given the
rounded count of 4-decimal units. -/
theorem remString_fmt {px : ℚ} (n : ℕ) (hx : 0 ≤ px)
    (h : jsRound (px / 16 * 10000) = (n : ℤ)) :
    remString px = String.mk (stripTrailingDot (stripTrailingZeros (fixedFmt4 n))) ++ "rem" := by
  unfold remString jsToFixed4
  rw [if_neg (not_lt.2 (by positivity : (0 : ℚ) ≤ px / 16)), h]
  simp

/-! ### Claim C4: colour scale shape -/

/-- C4: for every input, generateColorScale returns exactly 10 stops whose
shades are 50, 100, ..., 900 in ascending order, and the underlying ramp
pairs those shades with the fixed target lightness values 97, 93, 85, 74,
62, 50, 41, 33, 24, 15. -/
theorem C4_color_scale_shape (config : ColorScaleConfig) :
    (generateColorScale config).length = 10 ∧
    (generateColorScale config).map (fun g => g.shade) =
      [50, 100, 200, 300, 400, 500, 600, 700, 800, 900] ∧
    STANDARD_COLOR_SHADES.map (fun s => (s.shade, s.lightness)) =
      [(50, 97), (100, 93), (200, 85), (300, 74), (400, 62),
       (500, 50), (600, 41), (700, 33), (800, 24), (900, 15)] := by
  refine ⟨?_, ?_, ?_⟩ <;> simp [generateColorScale, STANDARD_COLOR_SHADES]

/-! ### Claim C8: spacing scale -/

/-- C8: generateSpacingScale returns one step per multiplier of the fixed
ordered list (0, 0.5, 1, 1.5, 2, 2.5, 3, 4, 5, 6, 7, 8, 10, 12, 14, 16,
20, 24, 28, 32), each with px = multiplier * base unit and with the
multiplier's canonical string form as its name; in particular
generateSpacingScale 4 has a step named "4" with px = 16 and a step named
"0" with px = 0. -/
theorem C8_spacing_scale (baseUnit : ℚ) :
    (generateSpacingScale baseUnit).map (fun s => s.name) =
      ["0", "0.5", "1", "1.5", "2", "2.5", "3", "4", "5", "6", "7", "8",
       "10", "12", "14", "16", "20", "24", "28", "32"] ∧
    (generateSpacingScale baseUnit).map (fun s => s.px) =
      spacingMultipliers.map (fun m => baseUnit * m) ∧
    ((generateSpacingScale 4).getD 7 ⟨"", 0, ""⟩).name = "4" ∧
    ((generateSpacingScale 4).getD 7 ⟨"", 0, ""⟩).px = 16 ∧
    ((generateSpacingScale 4).getD 0 ⟨"", 0, ""⟩).name = "0" ∧
    ((generateSpacingScale 4).getD 0 ⟨"", 0, ""⟩).px = 0 := by
  have e05 : jsNumStr (1/2 : ℚ) = "0.5" := by
    rw [jsNumStr_fmt 5000 (by norm_num) (by norm_num)]
    decide
  have e15 : jsNumStr (3/2 : ℚ) = "1.5" := by
    rw [jsNumStr_fmt 15000 (by norm_num) (by norm_num)]
    decide
  have e25 : jsNumStr (5/2 : ℚ) = "2.5" := by
    rw [jsNumStr_fmt 25000 (by norm_num) (by norm_num)]
    decide
  have e1 : jsNumStr (1 : ℚ) = "1" := by
    rw [jsNumStr_fmt 10000 (by norm_num) (by norm_num)]
    decide
  have e2 : jsNumStr (2 : ℚ) = "2" := by
    rw [jsNumStr_fmt 20000 (by norm_num) (by norm_num)]
    decide
  have e3 : jsNumStr (3 : ℚ) = "3" := by
    rw [jsNumStr_fmt 30000 (by norm_num) (by norm_num)]
    decide
  have e4 : jsNumStr (4 : ℚ) = "4" := by
    rw [jsNumStr_fmt 40000 (by norm_num) (by norm_num)]
    decide
  have e5 : jsNumStr (5 : ℚ) = "5" := by
    rw [jsNumStr_fmt 50000 (by norm_num) (by norm_num)]
    decide
  have e6 : jsNumStr (6 : ℚ) = "6" := by
    rw [jsNumStr_fmt 60000 (by norm_num) (by norm_num)]
    decide
  have e7 : jsNumStr (7 : ℚ) = "7" := by
    rw [jsNumStr_fmt 70000 (by norm_num) (by norm_num)]
    decide
  have e8 : jsNumStr (8 : ℚ) = "8" := by
    rw [jsNumStr_fmt 80000 (by norm_num) (by norm_num)]
    decide
  have e10 : jsNumStr (10 : ℚ) = "10" := by
    rw [jsNumStr_fmt 100000 (by norm_num) (by norm_num)]
    decide
  have e12 : jsNumStr (12 : ℚ) = "12" := by
    rw [jsNumStr_fmt 120000 (by norm_num) (by norm_num)]
    decide
  have e14 : jsNumStr (14 : ℚ) = "14" := by
    rw [jsNumStr_fmt 140000 (by norm_num) (by norm_num)]
    decide
  have e16 : jsNumStr (16 : ℚ) = "16" := by
    rw [jsNumStr_fmt 160000 (by norm_num) (by norm_num)]
    decide
  have e20 : jsNumStr (20 : ℚ) = "20" := by
    rw [jsNumStr_fmt 200000 (by norm_num) (by norm_num)]
    decide
  have e24 : jsNumStr (24 : ℚ) = "24" := by
    rw [jsNumStr_fmt 240000 (by norm_num) (by norm_num)]
    decide
  have e28 : jsNumStr (28 : ℚ) = "28" := by
    rw [jsNumStr_fmt 280000 (by norm_num) (by norm_num)]
    decide
  have e32 : jsNumStr (32 : ℚ) = "32" := by
    rw [jsNumStr_fmt 320000 (by norm_num) (by norm_num)]
    decide
  refine ⟨?_, ?_, ?_, ?_, ?_, ?_⟩ <;>
    norm_num [generateSpacingScale, spacingMultipliers, ite_self,
      e05, e15, e25, e1, e2, e3, e4, e5, e6, e7, e8, e10, e12, e14, e16,
      e20, e24, e28, e32]

/-! ### Claim C6: the "base" step -/

/-- C6 (amended): for every ratio name and base size, the step at index 2
of generateTypeScale is named "base", its factor is ratio^0 = 1, and its
pixel size is the base size rounded to 2 decimals -- hence equal to the
base size exactly whenever the base size is a whole number of hundredths
(in particular for every integer or 2-decimal base size). -/
theorem C6_base_step (baseSizePx : ℚ) (r : TypeScaleRatio) :
    ((generateTypeScale baseSizePx r).getD 2 ⟨"", 0, "", 0, 0, ""⟩).name = "base" ∧
    ((generateTypeScale baseSizePx r).getD 2 ⟨"", 0, "", 0, 0, ""⟩).factor = 1 ∧
    ((generateTypeScale baseSizePx r).getD 2 ⟨"", 0, "", 0, 0, ""⟩).px = round2 baseSizePx ∧
    ∀ z : ℤ, (z : ℚ) = baseSizePx * 100 →
      ((generateTypeScale baseSizePx r).getD 2 ⟨"", 0, "", 0, 0, ""⟩).px = baseSizePx := by
  refine ⟨?_, ?_, ?_, ?_⟩
  · simp [generateTypeScale, typeScaleSteps]
  · simp [generateTypeScale, typeScaleSteps]
  · simp [generateTypeScale, typeScaleSteps]
  · intro z hz
    simp only [generateTypeScale, typeScaleSteps, List.map, List.getD, List.get?]
    simp only [zpow_zero, mul_one, Option.getD_some]
    exact round2_eq_self z hz

/-- C6 witness: at base size 16 (with the golden ratio) the "base" step's
pixel size is exactly 16. -/
theorem C6_base_step_witness :
    ((generateTypeScale 16 TypeScaleRatio.goldenRatio).getD 2 ⟨"", 0, "", 0, 0, ""⟩).px = 16 :=
  (C6_base_step 16 TypeScaleRatio.goldenRatio).2.2.2 1600 (by norm_num)

/-- C6 counterexample: at base size 16.125 (any ratio; minor-second shown)
the "base" step's pixel size is 16.13, not the base size: the 2-decimal
rounding is not the identity on every base size. -/
theorem C6_base_step_counterexample :
    ((generateTypeScale (129/8) TypeScaleRatio.minorSecond).getD 2
        ⟨"", 0, "", 0, 0, ""⟩).px = 1613/100 ∧
    (1613/100 : ℚ) ≠ 129/8 := by
  constructor
  · simp only [generateTypeScale, typeScaleSteps, List.map, List.getD, List.get?,
      Option.getD_some, zpow_zero, mul_one]
    unfold round2 jsRound
    norm_num
  · norm_num

/-! ### Claim C10: monotonicity of the type scale -/

/-- Strict monotonicity of 2-decimal rounding across a gap of at least
1/100, scaled by a base of at least 1. -/
theorem round2_lt_round2 {b c cc : ℚ} (hb : 1 ≤ b) (h : c + 1/100 ≤ cc) :
    round2 (b * c) < round2 (b * cc) := by
  unfold round2
  have key : b * c * 100 + 1 ≤ b * cc * 100 := by nlinarith
  have h1 : ((jsRound (b * c * 100) : ℤ) : ℚ) ≤ b * c * 100 + 1/2 := by
    unfold jsRound
    exact Int.floor_le _
  have h2 : b * cc * 100 + 1/2 < ((jsRound (b * cc * 100) : ℤ) : ℚ) + 1 := by
    unfold jsRound
    exact Int.lt_floor_add_one _
  have hlt : ((jsRound (b * c * 100) : ℤ) : ℚ) < ((jsRound (b * cc * 100) : ℤ) : ℚ) := by
    linarith
  linarith

/-- C10: for every ratio name and base size at least 1 the ten steps come
in the order xs, sm, base, lg, xl, 2xl, 3xl, 4xl, 5xl, display, their
pixel sizes are strictly increasing (the 2-decimal rounding never
collapses adjacent steps), and their suggested font weights are
nondecreasing. -/
theorem C10_type_scale_monotone (baseSizePx : ℚ) (r : TypeScaleRatio)
    (hb : 1 ≤ baseSizePx) :
    1 < TYPE_SCALE_RATIOS r ∧
    (generateTypeScale baseSizePx r).map (fun s => s.name) =
      ["xs", "sm", "base", "lg", "xl", "2xl", "3xl", "4xl", "5xl", "display"] ∧
    List.Chain' (fun a b => a.px < b.px) (generateTypeScale baseSizePx r) ∧
    List.Chain' (fun a b => a.suggestedWeight ≤ b.suggestedWeight)
      (generateTypeScale baseSizePx r) := by
  refine ⟨?_, ?_, ?_, ?_⟩
  · cases r <;> norm_num [TYPE_SCALE_RATIOS]
  · simp [generateTypeScale, typeScaleSteps]
  · cases r <;>
      · simp only [generateTypeScale, typeScaleSteps, TYPE_SCALE_RATIOS, List.map,
          List.chain'_cons, List.chain'_singleton, and_true]
        repeat' apply And.intro
        all_goals exact round2_lt_round2 hb (by norm_num)
  · simp only [generateTypeScale, typeScaleSteps, List.map, List.chain'_cons,
      List.chain'_singleton, and_true]
    norm_num

/-- C10 witness: the conclusion at base size 16 with the perfect fourth. -/
theorem C10_type_scale_monotone_witness :
    1 < TYPE_SCALE_RATIOS TypeScaleRatio.perfectFourth ∧
    (generateTypeScale 16 TypeScaleRatio.perfectFourth).map (fun s => s.name) =
      ["xs", "sm", "base", "lg", "xl", "2xl", "3xl", "4xl", "5xl", "display"] ∧
    List.Chain' (fun a b => a.px < b.px)
      (generateTypeScale 16 TypeScaleRatio.perfectFourth) ∧
    List.Chain' (fun a b => a.suggestedWeight ≤ b.suggestedWeight)
      (generateTypeScale 16 TypeScaleRatio.perfectFourth) :=
  C10_type_scale_monotone 16 TypeScaleRatio.perfectFourth (by norm_num)

/-! ### Claim C7: hslToHex vectors and the standard conversion -/

/-- The truncation-based JavaScript remainder agrees with the mathematical
modulus on a nonnegative dividend and positive divisor. -/
theorem jsMod_eq_floorMod {x y : ℚ} (hx : 0 ≤ x) (hy : 0 < y) :
    jsMod x y = floorMod x y := by
  unfold jsMod floorMod ratTrunc
  rw [if_neg (not_lt.2 (div_nonneg hx hy.le))]

/-- The source channel agrees with the spec channel whenever n + h/30 is
nonnegative (in particular for every in-range hue). -/
theorem hslChannel_eq_spec (h s l n : ℚ) (hn : 0 ≤ n) (hh : 0 ≤ h) :
    hslChannel h s l n = specHslChannel h s l n := by
  unfold hslChannel specHslChannel
  rw [jsMod_eq_floorMod (add_nonneg hn (div_nonneg hh (by norm_num))) (by norm_num)]

/-- C7: hslToHex meets the three fixed test vectors, and on every in-range
input it reproduces the standard HSL to RGB conversion written with the
classic k = (n + h/30) mod 12 formula, channels rounded to the nearest
integer and left-padded to two hex digits. -/
theorem C7_hslToHex_standard :
    hslToHex 0 0 100 = "#ffffff" ∧
    hslToHex 0 0 0 = "#000000" ∧
    hslToHex 0 100 50 = "#ff0000" ∧
    ∀ h s l : ℚ, 0 ≤ h → h < 360 → 0 ≤ s → s ≤ 100 → 0 ≤ l → l ≤ 100 →
      hslToHex h s l = specHslToHex h s l := by
  have cw : ∀ n : ℚ, hslChannel 0 0 100 n = 255 := by
    intro n
    unfold hslChannel jsMod ratTrunc jsRound
    norm_num
  have cb : ∀ n : ℚ, hslChannel 0 0 0 n = 0 := by
    intro n
    unfold hslChannel jsMod ratTrunc jsRound
    norm_num
  have cr0 : hslChannel 0 100 50 0 = 255 := by
    unfold hslChannel jsMod ratTrunc jsRound
    norm_num [min_def, max_def]
  have cr8 : hslChannel 0 100 50 8 = 0 := by
    unfold hslChannel jsMod ratTrunc jsRound
    norm_num [min_def, max_def]
  have cr4 : hslChannel 0 100 50 4 = 0 := by
    unfold hslChannel jsMod ratTrunc jsRound
    norm_num [min_def, max_def]
  refine ⟨?_, ?_, ?_, ?_⟩
  · unfold hslToHex
    rw [cw 0, cw 8, cw 4]
    decide
  · unfold hslToHex
    rw [cb 0, cb 8, cb 4]
    decide
  · unfold hslToHex
    rw [cr0, cr8, cr4]
    decide
  · intro h s l hh _ _ _ _ _
    unfold hslToHex specHslToHex
    rw [hslChannel_eq_spec h s l 0 (by norm_num) hh,
      hslChannel_eq_spec h s l 8 (by norm_num) hh,
      hslChannel_eq_spec h s l 4 (by norm_num) hh]

/-- C7 witness: the refinement instantiated at the in-range input
(210, 50, 50). -/
theorem C7_hslToHex_standard_witness :
    hslToHex 210 50 50 = specHslToHex 210 50 50 :=
  C7_hslToHex_standard.2.2.2 210 50 50 (by norm_num) (by norm_num) (by norm_num)
    (by norm_num) (by norm_num) (by norm_num)

/-! ### Claims C3 and C9: per-stop colour facts -/

/-- Evaluation form of hslToHex from its three channel values. -/
theorem hslToHex_eval {h s l : ℚ} {a b c : ℤ} (h0 : hslChannel h s l 0 = a)
    (h8 : hslChannel h s l 8 = b) (h4 : hslChannel h s l 4 = c) :
    hslToHex h s l = "#" ++ hexByte a ++ hexByte b ++ hexByte c := by
  unfold hslToHex
  rw [h0, h8, h4]

/-- C9: in every generated colour stop the hex field and the hsl string
describe the same colour: the hex is hslToHex applied to the hue, the
adjusted saturation rounded to the nearest whole percent, and the stop's
target lightness, and that same rounded integer is the one printed in the
hsl string. -/
theorem C9_hsl_hex_consistent (name : String) (hue saturation : ℚ) (i : Fin 10) :
    ((generateColorScale ⟨name, hue, saturation⟩).getD (i : ℕ) ⟨0, "", ""⟩).hex =
      hslToHex hue
        (jsRound (if (STANDARD_COLOR_SHADES.getD (i : ℕ) ⟨0, 0⟩).lightness > 90 ∨
            (STANDARD_COLOR_SHADES.getD (i : ℕ) ⟨0, 0⟩).lightness < 20
          then saturation * (7/10) else saturation) : ℤ)
        (STANDARD_COLOR_SHADES.getD (i : ℕ) ⟨0, 0⟩).lightness ∧
    ((generateColorScale ⟨name, hue, saturation⟩).getD (i : ℕ) ⟨0, "", ""⟩).hsl =
      "hsl(" ++ jsNumStr hue ++ ", "
        ++ intStr (jsRound (if (STANDARD_COLOR_SHADES.getD (i : ℕ) ⟨0, 0⟩).lightness > 90 ∨
            (STANDARD_COLOR_SHADES.getD (i : ℕ) ⟨0, 0⟩).lightness < 20
          then saturation * (7/10) else saturation))
        ++ "%, " ++ jsNumStr (STANDARD_COLOR_SHADES.getD (i : ℕ) ⟨0, 0⟩).lightness ++ "%)" := by
  fin_cases i <;> exact ⟨rfl, rfl⟩

/-- C3 (amended): at every stop whose target lightness exceeds 90 or is
below 20 the effective saturation is exactly 0.7 times the input
saturation, and the stop's hex output is the HSL to RGB conversion of that
reduced saturation rounded to the nearest whole percent (Math.round); the
conversion is applied to the exact reduced saturation precisely when
0.7 times the input saturation is already an integer.  At every other stop
the hex output uses the input saturation, likewise rounded to the nearest
whole percent. -/
theorem C3_extreme_stop_saturation (name : String) (hue saturation : ℚ) (i : Fin 10) :
    (((STANDARD_COLOR_SHADES.getD (i : ℕ) ⟨0, 0⟩).lightness > 90 ∨
      (STANDARD_COLOR_SHADES.getD (i : ℕ) ⟨0, 0⟩).lightness < 20) →
      ((generateColorScale ⟨name, hue, saturation⟩).getD (i : ℕ) ⟨0, "", ""⟩).hex =
        hslToHex hue (jsRound (saturation * (7/10)) : ℤ)
          (STANDARD_COLOR_SHADES.getD (i : ℕ) ⟨0, 0⟩).lightness ∧
      ∀ z : ℤ, (z : ℚ) = saturation * (7/10) →
        ((generateColorScale ⟨name, hue, saturation⟩).getD (i : ℕ) ⟨0, "", ""⟩).hex =
          hslToHex hue (saturation * (7/10))
            (STANDARD_COLOR_SHADES.getD (i : ℕ) ⟨0, 0⟩).lightness) ∧
    (¬((STANDARD_COLOR_SHADES.getD (i : ℕ) ⟨0, 0⟩).lightness > 90 ∨
       (STANDARD_COLOR_SHADES.getD (i : ℕ) ⟨0, 0⟩).lightness < 20) →
      ((generateColorScale ⟨name, hue, saturation⟩).getD (i : ℕ) ⟨0, "", ""⟩).hex =
        hslToHex hue (jsRound saturation : ℤ)
          (STANDARD_COLOR_SHADES.getD (i : ℕ) ⟨0, 0⟩).lightness) := by
  fin_cases i
  case _ =>
    refine ⟨fun hx => ⟨?_, fun z hz => ?_⟩,
      fun hnx => (hnx (by norm_num [STANDARD_COLOR_SHADES])).elim⟩
    · simp only [generateColorScale, STANDARD_COLOR_SHADES, List.map, List.getD,
        List.get?, Option.getD_some]
      rw [if_pos (by norm_num)]
    · simp only [generateColorScale, STANDARD_COLOR_SHADES, List.map, List.getD,
        List.get?, Option.getD_some]
      rw [if_pos (by norm_num), ← hz, jsRound_intCast, hz]
  case _ =>
    refine ⟨fun hx => ⟨?_, fun z hz => ?_⟩,
      fun hnx => (hnx (by norm_num [STANDARD_COLOR_SHADES])).elim⟩
    · simp only [generateColorScale, STANDARD_COLOR_SHADES, List.map, List.getD,
        List.get?, Option.getD_some]
      rw [if_pos (by norm_num)]
    · simp only [generateColorScale, STANDARD_COLOR_SHADES, List.map, List.getD,
        List.get?, Option.getD_some]
      rw [if_pos (by norm_num), ← hz, jsRound_intCast, hz]
  case _ =>
    refine ⟨fun hx => absurd hx (by norm_num [STANDARD_COLOR_SHADES]), fun hnx => ?_⟩
    simp only [generateColorScale, STANDARD_COLOR_SHADES, List.map, List.getD,
      List.get?, Option.getD_some]
    rw [if_neg (by norm_num)]
  case _ =>
    refine ⟨fun hx => absurd hx (by norm_num [STANDARD_COLOR_SHADES]), fun hnx => ?_⟩
    simp only [generateColorScale, STANDARD_COLOR_SHADES, List.map, List.getD,
      List.get?, Option.getD_some]
    rw [if_neg (by norm_num)]
  case _ =>
    refine ⟨fun hx => absurd hx (by norm_num [STANDARD_COLOR_SHADES]), fun hnx => ?_⟩
    simp only [generateColorScale, STANDARD_COLOR_SHADES, List.map, List.getD,
      List.get?, Option.getD_some]
    rw [if_neg (by norm_num)]
  case _ =>
    refine ⟨fun hx => absurd hx (by norm_num [STANDARD_COLOR_SHADES]), fun hnx => ?_⟩
    simp only [generateColorScale, STANDARD_COLOR_SHADES, List.map, List.getD,
      List.get?, Option.getD_some]
    rw [if_neg (by norm_num)]
  case _ =>
    refine ⟨fun hx => absurd hx (by norm_num [STANDARD_COLOR_SHADES]), fun hnx => ?_⟩
    simp only [generateColorScale, STANDARD_COLOR_SHADES, List.map, List.getD,
      List.get?, Option.getD_some]
    rw [if_neg (by norm_num)]
  case _ =>
    refine ⟨fun hx => absurd hx (by norm_num [STANDARD_COLOR_SHADES]), fun hnx => ?_⟩
    simp only [generateColorScale, STANDARD_COLOR_SHADES, List.map, List.getD,
      List.get?, Option.getD_some]
    rw [if_neg (by norm_num)]
  case _ =>
    refine ⟨fun hx => absurd hx (by norm_num [STANDARD_COLOR_SHADES]), fun hnx => ?_⟩
    simp only [generateColorScale, STANDARD_COLOR_SHADES, List.map, List.getD,
      List.get?, Option.getD_some]
    rw [if_neg (by norm_num)]
  case _ =>
    refine ⟨fun hx => ⟨?_, fun z hz => ?_⟩,
      fun hnx => (hnx (by norm_num [STANDARD_COLOR_SHADES])).elim⟩
    · simp only [generateColorScale, STANDARD_COLOR_SHADES, List.map, List.getD,
        List.get?, Option.getD_some]
      rw [if_pos (by norm_num)]
    · simp only [generateColorScale, STANDARD_COLOR_SHADES, List.map, List.getD,
        List.get?, Option.getD_some]
      rw [if_pos (by norm_num), ← hz, jsRound_intCast, hz]

/-- C3 witness: the amended statement instantiated at hue 59, saturation 3,
stop index 0 (lightness 97). -/
theorem C3_extreme_stop_saturation_witness :
    ((generateColorScale ⟨"accent", 59, 3⟩).getD (0 : ℕ) ⟨0, "", ""⟩).hex =
      hslToHex 59 (jsRound ((3 : ℚ) * (7/10)) : ℤ)
        (STANDARD_COLOR_SHADES.getD (0 : ℕ) ⟨0, 0⟩).lightness :=
  ((C3_extreme_stop_saturation "accent" 59 3 0).1
    (by norm_num [STANDARD_COLOR_SHADES])).1

/-- C3 counterexample: at hue 59, input saturation 3, the shade-50 stop
(lightness 97) has hex #f8f7f7, computed from the rounded saturation
Math.round(2.1) = 2; the direct conversion with the exact reduced
saturation 2.1 gives #f8f8f7 instead.  The hex output therefore does not
match a conversion performed with the exact reduced saturation. -/
theorem C3_extreme_stop_saturation_counterexample :
    ((generateColorScale ⟨"accent", 59, 3⟩).getD (0 : ℕ) ⟨0, "", ""⟩).hex = "#f8f7f7" ∧
    hslToHex 59 ((3 : ℚ) * (7/10)) 97 = "#f8f8f7" ∧
    ((generateColorScale ⟨"accent", 59, 3⟩).getD (0 : ℕ) ⟨0, "", ""⟩).hex ≠
      hslToHex 59 ((3 : ℚ) * (7/10)) 97 := by
  have h2 : hslToHex 59 2 97 = "#f8f7f7" := by
    rw [hslToHex_eval (a := 248) (b := 247) (c := 247)]
    · decide
    all_goals
      unfold hslChannel jsMod ratTrunc jsRound
      norm_num [min_def, max_def]
  have h21 : hslToHex 59 ((3 : ℚ) * (7/10)) 97 = "#f8f8f7" := by
    rw [hslToHex_eval (a := 248) (b := 248) (c := 247)]
    · decide
    all_goals
      unfold hslChannel jsMod ratTrunc jsRound
      norm_num [min_def, max_def]
  have hgen : ((generateColorScale ⟨"accent", 59, 3⟩).getD (0 : ℕ) ⟨0, "", ""⟩).hex =
      hslToHex 59 (jsRound ((3 : ℚ) * (7/10)) : ℤ) 97 := rfl
  have hr : jsRound ((3 : ℚ) * (7/10)) = 2 := by
    unfold jsRound
    norm_num
  refine ⟨?_, h21, ?_⟩
  · rw [hgen, hr]
    exact_mod_cast h2
  · rw [hgen, hr, h21]
    exact_mod_cast h2 ▸ (by decide : ("#f8f7f7" : String) ≠ "#f8f8f7")

/-! ### Claim C1: behaviour on an unrecognized ratio name -/

/-- C1 (amended): generateTypeScale performs no runtime validation of the
ratio name -- the closed set of 8 names is enforced only by the TypeScript
type.  At runtime an unrecognized name makes the record lookup undefined
and the function still returns all 10 steps, never an error: every px is
NaN except the "base" step, whose exponent-0 power is 1 by the ECMAScript
rule, giving px = base rounded to 2 decimals. -/
theorem C1_no_runtime_validation (baseSizePx : ℚ) (ratioName : String)
    (h : TYPE_SCALE_RATIOS_ENTRIES.lookup ratioName = none) :
    (generateTypeScaleUntyped baseSizePx ratioName).map (fun s => (s.name, s.px)) =
      [("xs", none), ("sm", none), ("base", some (round2 baseSizePx)), ("lg", none),
       ("xl", none), ("2xl", none), ("3xl", none), ("4xl", none), ("5xl", none),
       ("display", none)] := by
  simp [generateTypeScaleUntyped, typeScaleSteps, h, jsPowOpt]

/-- C1 witness: the amended statement at base size 16 and the unrecognized
ratio name "modular". -/
theorem C1_no_runtime_validation_witness :
    (generateTypeScaleUntyped 16 "modular").map (fun s => (s.name, s.px)) =
      [("xs", none), ("sm", none), ("base", some (round2 16)), ("lg", none),
       ("xl", none), ("2xl", none), ("3xl", none), ("4xl", none), ("5xl", none),
       ("display", none)] :=
  C1_no_runtime_validation 16 "modular" (by decide)

/-- C1 counterexample: with the unrecognized ratio name "modular" the
function does not fail: it silently returns a full 10-step result whose
first step carries the NaN rem string, and whose "base" step even carries
the ordinary px 16. -/
theorem C1_no_runtime_validation_counterexample :
    (generateTypeScaleUntyped 16 "modular").length = 10 ∧
    (generateTypeScaleUntyped 16 "modular").map (fun s => s.px) =
      [none, none, some 16, none, none, none, none, none, none, none] ∧
    ((generateTypeScaleUntyped 16 "modular").getD 0
        ⟨"", none, "", none, 0, ""⟩).rem = "NaNrem" := by
  have hl : TYPE_SCALE_RATIOS_ENTRIES.lookup "modular" = none := by decide
  have hr2 : round2 16 = 16 := round2_eq_self 1600 (by norm_num)
  refine ⟨?_, ?_, ?_⟩
  · simp [generateTypeScaleUntyped, typeScaleSteps]
  · simp [generateTypeScaleUntyped, typeScaleSteps, hl, jsPowOpt, hr2]
  · simp only [generateTypeScaleUntyped, typeScaleSteps, hl, jsPowOpt, List.map,
      List.getD, List.get?, Option.getD_some]
    norm_num [remStringOpt, jsToFixed4Opt]
    decide

/-! ### Claim C2: contrast ratio symmetry -/

theorem srgbChannel_nonneg {c : ℝ} (hc : 0 ≤ c) : 0 ≤ srgbChannel c := by
  unfold srgbChannel
  split
  · positivity
  · exact Real.rpow_nonneg (by positivity) _

theorem relativeLuminance_nonneg (c : RGB) : 0 ≤ relativeLuminance c := by
  unfold relativeLuminance
  have h1 := srgbChannel_nonneg (c := (c.r : ℝ) / 255) (by positivity)
  have h2 := srgbChannel_nonneg (c := (c.g : ℝ) / 255) (by positivity)
  have h3 := srgbChannel_nonneg (c := (c.b : ℝ) / 255) (by positivity)
  positivity

/-- C2: evaluateContrast is symmetric in its two colours -- the full result
record coincides under argument swap -- and the computed ratio
(L_lighter + 0.05) / (L_darker + 0.05) is always at least 1. -/
theorem C2_contrast_symmetric_ge_one (x y : RGB) :
    evaluateContrast x y = evaluateContrast y x ∧
    1 ≤ (evaluateContrast x y).ratioValue := by
  constructor
  · unfold evaluateContrast
    rw [max_comm, min_comm]
  · unfold evaluateContrast
    simp only
    have hx := relativeLuminance_nonneg x
    have hy := relativeLuminance_nonneg y
    have h2 : (0 : ℝ) ≤ min (relativeLuminance x) (relativeLuminance y) :=
      le_min hx hy
    have hle : min (relativeLuminance x) (relativeLuminance y) ≤
        max (relativeLuminance x) (relativeLuminance y) := min_le_max
    rw [one_le_div (by linarith)]
    linarith

/-! ### Claim C5: printer and parser lemmas for the rem strings -/

theorem toDigitsAux_eq_digits (fuel n : ℕ) (acc : List Char) (h : n ≤ fuel) :
    toDigitsAux 10 fuel n acc = ((Nat.digits 10 n).map digitChar).reverse ++ acc := by
  induction fuel generalizing n acc with
  | zero =>
    have hn : n = 0 := Nat.le_zero.mp h
    subst hn
    simp [toDigitsAux]
  | succ f ih =>
    by_cases hn : n = 0
    · subst hn
      simp [toDigitsAux]
    · show (if n = 0 then acc else toDigitsAux 10 f (n / 10) (digitChar (n % 10) :: acc)) = _
      rw [if_neg hn]
      have hlt : n / 10 < n := Nat.div_lt_self (Nat.pos_of_ne_zero hn) (by norm_num)
      rw [ih (n / 10) _ (by omega)]
      rw [Nat.digits_def' (by norm_num : (1 : ℕ) < 10) (Nat.pos_of_ne_zero hn)]
      simp

theorem natToDigits_eq_digits {n : ℕ} (hn : n ≠ 0) :
    natToDigits 10 n = ((Nat.digits 10 n).map digitChar).reverse := by
  unfold natToDigits
  rw [if_neg hn, toDigitsAux_eq_digits n n [] le_rfl]
  simp

theorem natToDigits_ne_nil (n : ℕ) : natToDigits 10 n ≠ [] := by
  by_cases hn : n = 0
  · subst hn
    decide
  · rw [natToDigits_eq_digits hn]
    simp [Nat.digits_ne_nil_iff_ne_zero, hn]

theorem digitChar_is_digit {d : ℕ} (hd : d < 10) :
    isDigitCh (digitChar d) = true ∧ digitVal (digitChar d) = d := by
  interval_cases d <;> exact ⟨by decide, by decide⟩

theorem natToDigits_all_digits (n : ℕ) :
    ∀ c ∈ natToDigits 10 n, isDigitCh c = true := by
  by_cases hn : n = 0
  · subst hn
    decide
  · rw [natToDigits_eq_digits hn]
    intro c hc
    rw [List.mem_reverse, List.mem_map] at hc
    obtain ⟨d, hd, rfl⟩ := hc
    exact (digitChar_is_digit (Nat.digits_lt_base (by norm_num) hd)).1

theorem digit_ne_dot {c : Char} (h : isDigitCh c = true) : (c != '.') = true := by
  have hne : c ≠ '.' := by
    intro hc
    subst hc
    exact absurd h (by decide)
  simpa using hne

theorem parseNatAux_append (xs ys : List Char) (acc : ℕ) :
    parseNatAux (xs ++ ys) acc =
      (parseNatAux xs acc).bind fun m => parseNatAux ys m := by
  induction xs generalizing acc with
  | nil => simp [parseNatAux]
  | cons c cs ih =>
    simp only [List.cons_append, parseNatAux, List.append_eq]
    by_cases h : isDigitCh c
    · rw [if_pos h, if_pos h, ih]
    · rw [if_neg h, if_neg h]
      rfl

theorem parseNatAux_revMapDigits (ds : List ℕ) (hd : ∀ d ∈ ds, d < 10) (acc : ℕ) :
    parseNatAux ((ds.map digitChar).reverse) acc =
      some (acc * 10 ^ ds.length + Nat.ofDigits 10 ds) := by
  induction ds generalizing acc with
  | nil => simp [parseNatAux]
  | cons d t ih =>
    have hdlt : d < 10 := hd d (by simp)
    have hdig := digitChar_is_digit hdlt
    simp only [List.map_cons, List.reverse_cons]
    rw [parseNatAux_append, ih (fun x hx => hd x (by simp [hx])) acc]
    show parseNatAux [digitChar d] _ = _
    show (if isDigitCh (digitChar d) = true
      then parseNatAux [] (_ * 10 + digitVal (digitChar d)) else none) = _
    rw [if_pos hdig.1, hdig.2]
    show some _ = _
    congr 1
    rw [Nat.ofDigits_cons, List.length_cons]
    ring

theorem parseNatAux_natToDigits (n : ℕ) : parseNatAux (natToDigits 10 n) 0 = some n := by
  by_cases hn : n = 0
  · subst hn
    decide
  · rw [natToDigits_eq_digits hn,
      parseNatAux_revMapDigits _ (fun d hd => Nat.digits_lt_base (by norm_num) hd) 0]
    simp [Nat.ofDigits_digits]

theorem parseNatAux_replicate_zero (k : ℕ) (cs : List Char) :
    parseNatAux (List.replicate k '0' ++ cs) 0 = parseNatAux cs 0 := by
  induction k with
  | zero => simp
  | succ m ih =>
    simp only [List.replicate_succ, List.cons_append]
    show (if isDigitCh '0' = true
      then parseNatAux (List.replicate m '0' ++ cs) (0 * 10 + digitVal '0')
      else none) = parseNatAux cs 0
    rw [if_pos (by decide)]
    have hv : 0 * 10 + digitVal '0' = 0 := by decide
    rw [hv]
    exact ih

theorem stripTrailingZeros_append_zero (l : List Char) :
    stripTrailingZeros (l ++ ['0']) = stripTrailingZeros l := by
  unfold stripTrailingZeros
  rw [List.reverse_append]
  simp

theorem stripTrailingZeros_append_ne (l : List Char) (a : Char) (ha : (a == '0') = false) :
    stripTrailingZeros (l ++ [a]) = l ++ [a] := by
  unfold stripTrailingZeros
  rw [List.reverse_append]
  simp only [List.reverse_cons, List.reverse_nil, List.nil_append, List.singleton_append,
    List.dropWhile_cons, ha]
  simp

theorem stripTrailingZeros_length_le (l : List Char) :
    (stripTrailingZeros l).length ≤ l.length := by
  unfold stripTrailingZeros
  have h := (List.dropWhile_sublist (l := l.reverse) (· == '0')).length_le
  simpa using h

theorem stripTrailingZeros_sublist (l : List Char) :
    List.Sublist (stripTrailingZeros l) l := by
  unfold stripTrailingZeros
  have h := (List.dropWhile_sublist (l := l.reverse) (· == '0')).reverse
  simpa using h

theorem parseNatAux_stripTrailingZeros (cs : List Char) :
    parseNatAux cs 0 = (parseNatAux (stripTrailingZeros cs) 0).map
      (fun w => w * 10 ^ (cs.length - (stripTrailingZeros cs).length)) := by
  induction cs using List.reverseRecOn with
  | nil => simp [stripTrailingZeros, parseNatAux]
  | append_singleton l a ih =>
    by_cases ha : (a == '0') = true
    · have ha' : a = '0' := beq_iff_eq.mp ha
      subst ha'
      rw [stripTrailingZeros_append_zero, parseNatAux_append, ih]
      have hlen : (stripTrailingZeros l).length ≤ l.length :=
        stripTrailingZeros_length_le l
      have hk : (l ++ ['0']).length - (stripTrailingZeros l).length
          = (l.length - (stripTrailingZeros l).length) + 1 := by
        simp only [List.length_append, List.length_cons, List.length_nil]
        omega
      rw [hk]
      cases hp : parseNatAux (stripTrailingZeros l) 0 with
      | none => simp
      | some w =>
        simp only [Option.map_some', Option.some_bind]
        show (if isDigitCh '0' = true
          then parseNatAux [] (w * 10 ^ (l.length - (stripTrailingZeros l).length) * 10
            + digitVal '0') else none) = _
        rw [if_pos (by decide)]
        show some _ = some _
        congr 1
        have hdv : digitVal '0' = 0 := by decide
        rw [hdv, pow_succ]
        ring
    · have ha' : (a == '0') = false := by simpa using ha
      rw [stripTrailingZeros_append_ne l a ha']
      simp

theorem stripTrailingZeros_append_left (l cs : List Char)
    (h : stripTrailingZeros cs ≠ []) :
    stripTrailingZeros (l ++ cs) = l ++ stripTrailingZeros cs := by
  unfold stripTrailingZeros at *
  rw [List.reverse_append, List.dropWhile_append]
  have hne : ¬(cs.reverse.dropWhile (· == '0')).isEmpty = true := by
    intro hx
    rw [List.isEmpty_iff] at hx
    exact h (by rw [hx]; rfl)
  rw [if_neg hne, List.reverse_append, List.reverse_reverse]

theorem exists_getLast?_of_ne_nil {α : Type} {l : List α} (h : l ≠ []) :
    ∃ a, l.getLast? = some a := by
  induction l with
  | nil => exact absurd rfl h
  | cons x xs ih =>
    cases xs with
    | nil => exact ⟨x, rfl⟩
    | cons y ys =>
      obtain ⟨a, ha⟩ := ih (by simp)
      exact ⟨a, by rw [List.getLast?_cons_cons, ha]⟩

theorem dropWhile_eq_nil_of_all {p : Char → Bool} {l : List Char}
    (h : ∀ c ∈ l, p c = true) : l.dropWhile p = [] := by
  induction l with
  | nil => rfl
  | cons c cs ih =>
    rw [List.dropWhile_cons_of_pos (h c (by simp))]
    exact ih fun x hx => h x (by simp [hx])

theorem natToDigits_length_le_four {m : ℕ} (hm : m < 10000) :
    (natToDigits 10 m).length ≤ 4 := by
  by_cases h : m = 0
  · subst h
    decide
  · rw [natToDigits_eq_digits h]
    simp only [List.length_reverse, List.length_map]
    rw [Nat.digits_len 10 m (by norm_num) h]
    have hp : m < 10 ^ 4 := lt_of_lt_of_le hm (by norm_num)
    have := Nat.log_lt_of_lt_pow h hp
    omega

theorem padZeros_length {w : ℕ} {cs : List Char} (h : cs.length ≤ w) :
    (padZeros w cs).length = w := by
  simp only [padZeros, List.length_append, List.length_replicate]
  omega

theorem padZeros_all_digits {w : ℕ} {cs : List Char}
    (h : ∀ c ∈ cs, isDigitCh c = true) :
    ∀ c ∈ padZeros w cs, isDigitCh c = true := by
  intro c hc
  rw [padZeros, List.mem_append] at hc
  rcases hc with hc | hc
  · rw [List.eq_of_mem_replicate hc]
    decide
  · exact h c hc

theorem parseNatAux_padZeros (w m : ℕ) :
    parseNatAux (padZeros w (natToDigits 10 m)) 0 = some m := by
  rw [padZeros, parseNatAux_replicate_zero]
  exact parseNatAux_natToDigits m

theorem parseDec_no_dot {cs : List Char} (h : cs.dropWhile (· != '.') = []) :
    parseDec cs = (parseNatChars cs).map (fun a => (a : ℚ)) := by
  unfold parseDec
  rw [h]

theorem parseDec_dot (cs A F : List Char) (a b : ℕ)
    (hd : cs.dropWhile (· != '.') = '.' :: F)
    (ht : cs.takeWhile (· != '.') = A)
    (ha : parseNatChars A = some a) (hb : parseNatChars F = some b) :
    parseDec cs = some ((a : ℚ) + (b : ℚ) / 10 ^ F.length) := by
  unfold parseDec
  rw [hd, ht]
  show (parseNatChars A).bind
      (fun a => (parseNatChars F).map fun b => (a : ℚ) + (b : ℚ) / 10 ^ F.length) = _
  rw [ha, hb]
  rfl

/-- Cast arithmetic for recombining an integer part and a trimmed
fractional part into a 4-decimal value. -/
theorem cast_decimal_split {n w q j k : ℕ} (hjk : j + k = 4)
    (hn : n = 10000 * q + w * 10 ^ k) :
    (q : ℚ) + (w : ℚ) / 10 ^ j = (n : ℚ) / 10000 := by
  subst hn
  push_cast
  rw [show ((10000 : ℚ)) = 10 ^ (4 : ℕ) from by norm_num, ← hjk, pow_add]
  have h1 : ((10 : ℚ)) ^ j ≠ 0 := by positivity
  have h2 : ((10 : ℚ)) ^ k ≠ 0 := by positivity
  field_simp
  ring

/-- Round trip of the toFixed(4)-and-trim printer through the decimal
parser: the trimmed string denotes exactly n / 10000. -/
theorem parseDec_fixedTrim (n : ℕ) :
    parseDec (stripTrailingDot (stripTrailingZeros (fixedFmt4 n))) =
      some ((n : ℚ) / 10000) := by
  have hmod : n % 10000 < 10000 := Nat.mod_lt _ (by norm_num)
  set A := natToDigits 10 (n / 10000) with hA
  set F := padZeros 4 (natToDigits 10 (n % 10000)) with hF
  have hAdig : ∀ c ∈ A, isDigitCh c = true := natToDigits_all_digits _
  have hAne : A ≠ [] := natToDigits_ne_nil _
  have hFdig : ∀ c ∈ F, isDigitCh c = true :=
    padZeros_all_digits (natToDigits_all_digits _)
  have hFlen : F.length = 4 := padZeros_length (natToDigits_length_le_four hmod)
  have hFparse : parseNatAux F 0 = some (n % 10000) := parseNatAux_padZeros 4 _
  have hfix : fixedFmt4 n = A ++ '.' :: F := rfl
  have hAparse : parseNatChars A = some (n / 10000) := by
    unfold parseNatChars
    rw [if_neg (by simpa [List.isEmpty_iff] using hAne)]
    exact parseNatAux_natToDigits _
  by_cases hfp : n % 10000 = 0
  · have hF0 : F = ['0', '0', '0', '0'] := by
      rw [hF, hfp]
      decide
    have hstrip : stripTrailingZeros (fixedFmt4 n) = A ++ ['.'] := by
      rw [hfix, hF0,
        show A ++ '.' :: ['0', '0', '0', '0']
          = ((((A ++ ['.']) ++ ['0']) ++ ['0']) ++ ['0']) ++ ['0'] from by simp,
        stripTrailingZeros_append_zero, stripTrailingZeros_append_zero,
        stripTrailingZeros_append_zero, stripTrailingZeros_append_zero,
        stripTrailingZeros_append_ne _ '.' (by decide)]
    have hdot : stripTrailingDot (A ++ ['.']) = A := by
      unfold stripTrailingDot
      rw [List.getLast?_concat, if_pos rfl]
      exact List.dropLast_concat
    rw [hstrip, hdot,
      parseDec_no_dot (dropWhile_eq_nil_of_all fun c hc => digit_ne_dot (hAdig c hc)),
      hAparse]
    show some (((n / 10000 : ℕ) : ℚ)) = some ((n : ℚ) / 10000)
    congr 1
    have hn' : n = 10000 * (n / 10000) := by omega
    rw [Nat.cast_div ⟨n / 10000, hn'⟩ (by norm_num)]
    norm_num
  · set F' := stripTrailingZeros F with hF'
    have hval := parseNatAux_stripTrailingZeros F
    rw [hFparse] at hval
    cases hp : parseNatAux F' 0 with
    | none =>
      rw [← hF', hp] at hval
      simp at hval
    | some w =>
      rw [← hF', hp] at hval
      simp only [Option.map_some'] at hval
      have hw : w * 10 ^ (F.length - F'.length) = n % 10000 := by
        injection hval with h
        exact h.symm
      have hF'ne : F' ≠ [] := by
        intro hx
        rw [hx] at hp
        have hw0 : w = 0 := by
          have := hp.symm
          simpa [parseNatAux] using this
        subst hw0
        rw [hx] at hw
        simp at hw
        exact hfp hw.symm
      have hstrip : stripTrailingZeros (fixedFmt4 n) = (A ++ ['.']) ++ F' := by
        rw [hfix, show A ++ '.' :: F = (A ++ ['.']) ++ F from by simp,
          stripTrailingZeros_append_left _ _ (by rw [← hF']; exact hF'ne), hF']
      obtain ⟨c, hc⟩ := exists_getLast?_of_ne_nil hF'ne
      have hcdig : isDigitCh c = true := by
        have hmem : c ∈ F' := List.mem_of_getLast?_eq_some hc
        exact hFdig c ((stripTrailingZeros_sublist F).subset hmem)
      have hcne : c ≠ '.' := by
        intro hx
        subst hx
        exact absurd hcdig (by decide)
      have hdot : stripTrailingDot ((A ++ ['.']) ++ F') = (A ++ ['.']) ++ F' := by
        unfold stripTrailingDot
        rw [List.getLast?_append, hc]
        have hor : (Option.some c).or (A ++ ['.']).getLast? = some c := rfl
        rw [hor, if_neg (by simpa using hcne)]
      rw [hstrip, hdot, show (A ++ ['.']) ++ F' = A ++ '.' :: F' from by simp]
      have hpne : ∀ a ∈ A, ((a != '.') = true) := fun a ha => digit_ne_dot (hAdig a ha)
      have hdrop : (A ++ '.' :: F').dropWhile (· != '.') = '.' :: F' := by
        rw [List.dropWhile_append_of_pos hpne,
          List.dropWhile_cons_of_neg (by decide)]
      have htake : (A ++ '.' :: F').takeWhile (· != '.') = A := by
        rw [List.takeWhile_append_of_pos hpne,
          List.takeWhile_cons_of_neg (by decide)]
        simp
      have hFparse' : parseNatChars F' = some w := by
        unfold parseNatChars
        rw [if_neg (by simpa [List.isEmpty_iff] using hF'ne)]
        exact hp
      rw [parseDec_dot _ _ _ _ _ hdrop htake hAparse hFparse']
      congr 1
      have hlen' : F'.length ≤ F.length := by
        rw [hF']
        exact stripTrailingZeros_length_le F
      have hdm : n = 10000 * (n / 10000) + w * 10 ^ (F.length - F'.length) := by
        rw [hw]
        omega
      exact cast_decimal_split (by omega) hdm

theorem parseRem_mk_rem (cs : List Char) :
    parseRem (String.mk cs ++ "rem") = parseDec cs := by
  unfold parseRem
  have hdata : (String.mk cs ++ "rem").data = cs ++ ['r', 'e', 'm'] := rfl
  rw [hdata]
  have hcond : ((cs ++ ['r', 'e', 'm']).reverse.take 3) = ['m', 'e', 'r'] := by
    rw [List.reverse_append]
    rfl
  rw [hcond, if_pos rfl]
  have hlen : (cs ++ ['r', 'e', 'm']).length - 3 = cs.length := by simp
  rw [hlen]
  congr 1
  simp

/-- The rem string of a nonnegative px value parses back to exactly px/16
rounded to 4 decimal places. -/
theorem parseRem_remString {px : ℚ} (hpx : 0 ≤ px) :
    parseRem (remString px) = some (round4 (px / 16)) := by
  have hx : 0 ≤ px / 16 := by positivity
  have hnn : (0 : ℤ) ≤ jsRound (px / 16 * 10000) := jsRound_nonneg (by positivity)
  set n := (jsRound (px / 16 * 10000)).toNat with hn
  have hfx : jsToFixed4 (px / 16) = String.mk (fixedFmt4 n) := by
    unfold jsToFixed4
    rw [if_neg (not_lt.2 hx), hn]
  unfold remString
  rw [hfx, show (String.mk (fixedFmt4 n)).data = fixedFmt4 n from rfl,
    parseRem_mk_rem, parseDec_fixedTrim]
  unfold round4
  congr 1
  rw [hn]
  congr 1
  exact_mod_cast Int.toNat_of_nonneg hnn

/-- C5 (amended): every rem string produced by the type scale and by the
spacing scale denotes the value px/16 rounded to 4 decimal places (the
digits beyond toFixed(4) are lost; the string equals exact px/16 only when
px/16 needs at most 4 decimals). -/
theorem C5_rem_strings (baseSizePx baseUnit : ℚ) (r : TypeScaleRatio)
    (hb : 0 ≤ baseSizePx) (hu : 0 ≤ baseUnit) :
    (∀ step ∈ generateTypeScale baseSizePx r,
      parseRem step.rem = some (round4 (step.px / 16))) ∧
    (∀ step ∈ generateSpacingScale baseUnit,
      parseRem step.rem = some (round4 (step.px / 16))) := by
  have hrpos : 0 < TYPE_SCALE_RATIOS r := by
    cases r <;> norm_num [TYPE_SCALE_RATIOS]
  constructor
  · intro step hstep
    simp only [generateTypeScale, List.mem_map] at hstep
    obtain ⟨st, hst, rfl⟩ := hstep
    exact parseRem_remString
      (round2_nonneg (mul_nonneg hb (zpow_pos hrpos _).le))
  · intro step hstep
    simp only [generateSpacingScale, List.mem_map] at hstep
    obtain ⟨m, hm, rfl⟩ := hstep
    fin_cases hm <;>
      exact parseRem_remString (mul_nonneg hu (by norm_num))

/-- C5 witness: the conclusion at type-scale base 16 with the perfect
fourth and spacing base unit 4. -/
theorem C5_rem_strings_witness :
    (∀ step ∈ generateTypeScale 16 TypeScaleRatio.perfectFourth,
      parseRem step.rem = some (round4 (step.px / 16))) ∧
    (∀ step ∈ generateSpacingScale 4,
      parseRem step.rem = some (round4 (step.px / 16))) :=
  C5_rem_strings 16 4 TypeScaleRatio.perfectFourth (by norm_num) (by norm_num)

/-- C5 counterexample: at base 16 with the perfect fourth, the "lg" step
has px = 21.33 and px/16 = 1.333125, but the rem string is "1.3331rem",
which denotes 1.3331: toFixed(4) discards the trailing 25 hundred-
thousandths, so the rem string does not denote exactly px/16. -/
theorem C5_rem_strings_counterexample :
    ((generateTypeScale 16 TypeScaleRatio.perfectFourth).getD 3
        ⟨"", 0, "", 0, 0, ""⟩).px = 2133/100 ∧
    ((generateTypeScale 16 TypeScaleRatio.perfectFourth).getD 3
        ⟨"", 0, "", 0, 0, ""⟩).rem = "1.3331rem" ∧
    parseRem "1.3331rem" = some (13331/10000) ∧
    (2133/100 : ℚ) / 16 ≠ 13331/10000 := by
  have hpx : round2 (16 * TYPE_SCALE_RATIOS TypeScaleRatio.perfectFourth ^ (1 : ℤ))
      = 2133/100 := by
    unfold TYPE_SCALE_RATIOS round2 jsRound
    norm_num
  refine ⟨?_, ?_, ?_, by norm_num⟩
  · simp only [generateTypeScale, typeScaleSteps, List.map, List.getD, List.get?,
      Option.getD_some]
    exact hpx
  · simp only [generateTypeScale, typeScaleSteps, List.map, List.getD, List.get?,
      Option.getD_some]
    rw [hpx, remString_fmt 13331 (by norm_num) (by unfold jsRound; norm_num)]
    decide
  · rw [show ("1.3331rem" : String) = String.mk ['1', '.', '3', '3', '3', '1'] ++ "rem"
      from rfl, parseRem_mk_rem,
      parseDec_dot ['1', '.', '3', '3', '3', '1'] ['1'] ['3', '3', '3', '1'] 1 3331
        (by decide) (by decide) (by decide) (by decide)]
    norm_num

end DesignTokens
